import Mathlib

/-!
Shallow embedding of the emailJob ingestion-and-persistence pipeline.

The record store (SQLite via SQLAlchemy) is modelled as a `DB` value holding the
four tables, and an ORM session as a pair of `DB` values: the last committed
state and the current in-transaction view.  `flush` makes a pending row visible
in the current view (so generated identifiers are available), `commit` copies
the current view into the committed state, `rollback` restores the current view
from the committed state.  The blob store (the attachments directory) is a
finite set of stored file names.  Whether a given blob write succeeds, whether
a failed write leaves fragmentary bytes behind, and the text of the reported
OS error are environment behaviour, so they appear as explicit fields of the
decoded attachment input.  Timestamps are abstract naturals passed as
parameters.  Strings are lists of characters so that the case-insensitive
substring tests of the filter engine and the decimal formatting of stored
attachment names are fully executable.
-/

abbrev Str := List Char

/-- Lowercases every character, modelling Python str.lower (ASCII-faithful). -/
def toLowerStr (s : Str) : Str := s.map Char.toLower

/-- Tests whether the first list is an initial segment of the second. -/
def strStartsWith : Str → Str → Bool
  | [], _ => true
  | _ :: _, [] => false
  | c :: p, d :: l => c == d && strStartsWith p l

/-- Occurrence test of the first string inside the second, modelling the
Python membership operator on strings. -/
def isSubstr : Str → Str → Bool
  | p, [] => p.isEmpty
  | p, c :: t => strStartsWith p (c :: t) || isSubstr p t

/-- Removes leading and trailing whitespace, modelling Python str.strip(). -/
def stripStr (s : Str) : Str :=
  ((s.dropWhile Char.isWhitespace).reverse.dropWhile Char.isWhitespace).reverse

/-- Python truthiness of an optional string: None and the empty string are
falsy, every other string is truthy. -/
def truthy : Option Str → Bool
  | none => false
  | some s => !s.isEmpty

/-- Fuel-driven most-significant-first decimal expansion; whenever the fuel
exceeds the number this computes the ordinary decimal digits. -/
def digitsAux : Nat → Nat → Str
  | 0, _ => []
  | fuel + 1, n =>
    if n < 10 then [Nat.digitChar n]
    else digitsAux fuel (n / 10) ++ [Nat.digitChar (n % 10)]

/-- Decimal representation of a natural number, as produced by Python str(n). -/
def digitsStr (n : Nat) : Str := digitsAux (n + 1) n

/-- Zero padding to width eight, modelling the Python format f"{n:08d}": at
least eight characters, the full decimal expansion when it is longer. -/
def pad8 (n : Nat) : Str :=
  List.replicate (8 - (digitsStr n).length) '0' ++ digitsStr n

/-- Reads a most-significant-first digit string back into a number. -/
def valNum (s : Str) : Nat := s.foldl (fun a c => 10 * a + (c.toNat - 48)) 0

/-- The literal tag opening every derived stored attachment name. -/
def idTag : Str := "ID".data

/-- Stored attachment name derived in services.save_attachment_with_rollback:
the Python format f"ID{email_id:08d}-{attachment_id:08d}_{filename_original}". -/
def storedNameA (emailId attId : Nat) (filename : Str) : Str :=
  idTag ++ pad8 emailId ++ '-' :: (pad8 attId ++ '_' :: filename)

/-- Stored attachment name derived in EmailFetchService.fetch_and_store_emails:
the Python format f"ID{email_record.id:08d}-{attachment.id:08d}-{filename}". -/
def storedNameB (emailId attId : Nat) (filename : Str) : Str :=
  idTag ++ pad8 emailId ++ '-' :: (pad8 attId ++ '-' :: filename)

/-- Row of the emails table (models.Email).  The created_at column, set by a
database default and never read by the pipeline, is omitted. -/
structure Email where
  id : Nat
  message_id : Str
  sender : Str
  recipient : Option Str
  cc : Option Str
  subject : Option Str
  body : Option Str
  received_at : Option Nat
  is_deleted : Bool
deriving DecidableEq

/-- Row of the attachments table (models.Attachment); created_at omitted as
for Email. -/
structure Attachment where
  id : Nat
  email_id : Nat
  filename_original : Str
  filename_stored : Str
  mime_type : Option Str
  size_bytes : Option Nat
deriving DecidableEq

/-- Row of the email_filters table (models.EmailFilter); the id, name and
created_at columns play no role in filter evaluation and are omitted. -/
structure EmailFilter where
  enabled : Bool
  from_address : Option Str
  subject_contains : Option Str
  body_contains : Option Str
deriving DecidableEq

/-- The three status strings ever assigned to a job run by the pipeline. -/
inductive RunStatus where
  | running
  | success
  | error
deriving DecidableEq

/-- Row of the job_runs table (models.JobRun). -/
structure JobRun where
  id : Nat
  started_at : Nat
  finished_at : Option Nat
  messages_fetched : Nat
  messages_saved : Nat
  status : RunStatus
  error_message : Option Str
deriving DecidableEq

/-- The four tables of the record store. -/
structure DB where
  emails : List Email
  attachments : List Attachment
  filters : List EmailFilter
  job_runs : List JobRun
deriving DecidableEq

/-- An ORM session: the last committed database state and the current
in-transaction view (committed rows plus flushed, not yet committed rows). -/
structure Sess where
  committed : DB
  current : DB
deriving DecidableEq

/-- db.commit(): the current view becomes durable. -/
def Sess.commit (s : Sess) : Sess := ⟨s.current, s.current⟩

/-- db.rollback(): the current view is restored from the committed state. -/
def Sess.rollback (s : Sess) : Sess := ⟨s.committed, s.committed⟩

/-- The blob store: the set of stored file names present on disk. -/
abbrev Disk := List Str

/-- Creating or truncating a file at a path: the path becomes present. -/
def diskInsert (d : Disk) (n : Str) : Disk := if n ∈ d then d else n :: d

/-- os.remove guarded by os.path.exists: the path becomes absent. -/
def diskRemove (d : Disk) (n : Str) : Disk := d.filter (fun m => !(m == n))

/-- SQLite rowid allocation: one more than the largest existing identifier. -/
def nextId (ids : List Nat) : Nat := ids.foldr max 0 + 1

/-- EmailRepository.get_by_message_id: first email row whose message_id equals
the candidate identifier, with no condition on the soft-deletion flag. -/
def get_by_message_id (db : DB) (mid : Str) : Option Email :=
  db.emails.find? (fun e => e.message_id == mid)

/-- EmailRepository.create followed by flush: inserts the row and exposes the
generated identifier. -/
def createEmail (db : DB) (mid : Str) (sender : Str)
    (recipient cc subject body : Option Str) (received : Option Nat) :
    Email × DB :=
  let e : Email :=
    ⟨nextId (db.emails.map (·.id)), mid, sender, recipient, cc, subject, body,
      received, false⟩
  (e, { db with emails := db.emails ++ [e] })

/-- AttachmentRepository.create followed by flush. -/
def createAttachment (db : DB) (emailId : Nat) (forig fstored : Str)
    (mime : Option Str) (size : Option Nat) : Attachment × DB :=
  let a : Attachment :=
    ⟨nextId (db.attachments.map (·.id)), emailId, forig, fstored, mime, size⟩
  (a, { db with attachments := db.attachments ++ [a] })

/-- In-place update of attachment.filename_stored followed by flush. -/
def updateAttachmentStored (db : DB) (attId : Nat) (stored : Str) : DB :=
  { db with
    attachments := db.attachments.map
      (fun a => if a.id = attId then { a with filename_stored := stored } else a) }

/-- AttachmentRepository.delete followed by flush. -/
def deleteAttachment (db : DB) (attId : Nat) : DB :=
  { db with attachments := db.attachments.filter (fun a => !(a.id == attId)) }

/-- EmailFilterRepository.get_all with enabled_only=True. -/
def enabledFilters (db : DB) : List EmailFilter :=
  db.filters.filter (·.enabled)

/-- JobRunRepository.create followed by flush: a fresh row in running state
with the current timestamp, no end timestamp and zero counts. -/
def createJobRun (db : DB) (t0 : Nat) : JobRun × DB :=
  let r : JobRun :=
    ⟨nextId (db.job_runs.map (·.id)), t0, none, 0, 0, .running, none⟩
  (r, { db with job_runs := db.job_runs ++ [r] })

/-- JobRunRepository.finish: the finalized value of a run record. -/
def finishJobRun (jr : JobRun) (fetched saved : Nat) (st : RunStatus)
    (err : Option Str) (t1 : Nat) : JobRun :=
  { jr with
    finished_at := some t1
    messages_fetched := fetched
    messages_saved := saved
    status := st
    error_message := err }

/-- Writes a finalized run record over the row with the same identifier. -/
def updateJobRun (db : DB) (r : JobRun) : DB :=
  { db with job_runs := db.job_runs.map (fun x => if x.id = r.id then r else x) }

/-- JobRunRepository.get_last: the row with the greatest identifier. -/
def getLast (db : DB) : Option JobRun :=
  db.job_runs.foldl
    (fun acc r =>
      match acc with
      | none => some r
      | some m => if m.id < r.id then some r else some m)
    none

/-- JobRunRepository.get_aggregated_metrics: coalesced sums over all run rows
plus the most recent run row. -/
def get_aggregated_metrics (db : DB) : Option JobRun × Nat × Nat :=
  (getLast db, (db.job_runs.map (·.messages_fetched)).sum,
    (db.job_runs.map (·.messages_saved)).sum)

/-- The JobMetrics response schema (schemas.JobMetrics). -/
structure JobMetrics where
  last_run_start : Option Nat
  last_run_end : Option Nat
  last_status : Option RunStatus
  last_error : Option Str
  total_messages_fetched : Nat
  total_messages_saved : Nat
deriving DecidableEq

/-- services.get_job_metrics: the read-only metrics view derived from the run
record history. -/
def get_job_metrics (db : DB) : JobMetrics :=
  let m := get_aggregated_metrics db
  { last_run_start := m.1.map (·.started_at)
    last_run_end := m.1.bind (·.finished_at)
    last_status := m.1.map (·.status)
    last_error := m.1.bind (·.error_message)
    total_messages_fetched := m.2.1
    total_messages_saved := m.2.2 }

/-- The candidate view consumed by the filter engine: the sender, subject and
body entries of the decoded message dictionary, each possibly absent. -/
structure EmailData where
  sender : Option Str
  subject : Option Str
  body : Option Str
deriving DecidableEq

/-- Case-insensitive containment of the rule string in the candidate field,
with an absent candidate field read as the empty string: the Python test
cond.lower() in (field or "").lower(). -/
def condTest (cond : Str) (field : Option Str) : Bool :=
  isSubstr (toLowerStr cond) (toLowerStr (field.getD []))

/-- The conds list built by apply_filters_to_email for one filter: one entry
per configured condition, in source order. -/
def condsOf (f : EmailFilter) (em : EmailData) : List Bool :=
  (if truthy f.from_address then [condTest (f.from_address.getD []) em.sender] else []) ++
  (if truthy f.subject_contains then [condTest (f.subject_contains.getD []) em.subject] else []) ++
  (if truthy f.body_contains then [condTest (f.body_contains.getD []) em.body] else [])

/-- The for-loop of apply_filters_to_email: disabled filters and filters with
no configured condition are skipped; the first filter whose conjunction of
configured conditions holds accepts; falling off the end rejects. -/
def filtersLoop (em : EmailData) : List EmailFilter → Bool
  | [] => false
  | f :: rest =>
    if !f.enabled then filtersLoop em rest
    else if !(truthy f.from_address || truthy f.subject_contains || truthy f.body_contains) then
      filtersLoop em rest
    else if (condsOf f em).all id then true
    else filtersLoop em rest

/-- services.apply_filters_to_email: accept everything when no filters exist,
otherwise run the filter loop. -/
def apply_filters_to_email (em : EmailData) (filters : List EmailFilter) : Bool :=
  if filters.isEmpty then true else filtersLoop em filters

/-- One attachment of a decoded raw message.  filename is the raw part
filename header (absent when the part has none); content is the decoded byte
payload.  write_ok, fragment_left and err_msg describe the behaviour of the
storage medium for this blob write: whether the disk write succeeds, whether a
failed write leaves fragmentary bytes at the target path, and the text of the
OS error raised on failure. -/
structure RawAttach where
  filename : Option Str
  mime_type : Str
  content : List Nat
  write_ok : Bool
  fragment_left : Bool
  err_msg : Str
deriving DecidableEq

/-- A decoded raw message as produced from transport bytes: each header is
present or absent as in the underlying message, date is the parsed Date
header (absent when the header is missing or unparseable). -/
structure RawEmail where
  message_id : Option Str
  sender : Option Str
  recipient : Option Str
  cc : Option Str
  subject : Option Str
  body : Str
  date : Option Nat
  attachments : List RawAttach
deriving DecidableEq

/-- One attachment entry of the dictionary built by
EmailClient.fetch_unseen_emails_raw: a missing or empty part filename is
replaced by "unknown", and size_bytes is the payload length. -/
structure ClientAttach where
  filename : Str
  mime_type : Str
  content : List Nat
  size_bytes : Nat
  write_ok : Bool
  fragment_left : Bool
  err_msg : Str
deriving DecidableEq

/-- The message dictionary built by EmailClient.fetch_unseen_emails_raw. -/
structure ClientEmail where
  message_id : Str
  sender : Str
  recipient : Str
  cc : Option Str
  subject : Option Str
  body : Str
  received_at : Option Nat
  attachments : List ClientAttach
deriving DecidableEq

/-- The fallback filename used by EmailClient for a part without one. -/
def unknownName : Str := "unknown".data

/-- EmailClient attachment decoding: decoded filename when truthy, otherwise
"unknown"; size_bytes := len(payload). -/
def clientDecodeAttach (a : RawAttach) : ClientAttach :=
  ⟨if truthy a.filename then a.filename.getD [] else unknownName,
    a.mime_type, a.content, a.content.length, a.write_ok, a.fragment_left,
    a.err_msg⟩

/-- EmailClient message decoding: message_id is the stripped header defaulting
to the empty string, sender and recipient default to the empty string, cc and
subject are kept only when the raw header is truthy, received_at is the parsed
date or None. -/
def clientDecode (r : RawEmail) : ClientEmail :=
  ⟨stripStr (r.message_id.getD []), r.sender.getD [], r.recipient.getD [],
    (if truthy r.cc then r.cc else none),
    (if truthy r.subject then r.subject else none),
    r.body, r.date, r.attachments.map clientDecodeAttach⟩

/-- The filter-engine view of a client message dictionary. -/
def emailDataOf (em : ClientEmail) : EmailData :=
  ⟨some em.sender, em.subject, some em.body⟩

/-- The FastAPI HTTPException raised by the attachment writer. -/
structure HTTPErr where
  status_code : Nat
  detail : Str
deriving DecidableEq

/-- Fragment of the disk-failure detail message before the filename. -/
def errDiskPre : Str := "Erro ao salvar anexo ".data

/-- Fragment of the disk-failure detail message between filename and cause. -/
def errDiskMid : Str := " em disco: ".data

/-- The single-quote character wrapping the filename in the detail message. -/
def quoteChar : Char := Char.ofNat 39

/-- Detail of the HTTPException raised on a failed blob write: the Python
f-string "Erro ao salvar anexo [...]" carrying the original filename and the
text of the underlying cause. -/
def errDetailDisk (filename cause : Str) : Str :=
  errDiskPre ++ quoteChar :: filename ++ quoteChar :: (errDiskMid ++ cause)

/-- Separator of str(HTTPException): status code, colon, detail. -/
def httpSep : Str := ": ".data

/-- str(exc) for an HTTPException, as recorded in error_message. -/
def strOfHTTP (e : HTTPErr) : Str :=
  digitsStr e.status_code ++ httpSep ++ e.detail

/-- The placeholder stored name used by services.save_attachment_with_rollback
before the real name is derived. -/
def tempName : Str := "temp".data

/-- services.save_attachment_with_rollback: insert the metadata row with a
placeholder stored name, flush to obtain the identifier, derive and record the
final stored name, then write the blob.  On a failed write: roll back the
transaction, remove any bytes left at the target path, and raise an
HTTPException carrying the original filename and the underlying cause. -/
def save_attachment_with_rollback (s : Sess) (d : Disk) (emailObj : Email)
    (a : ClientAttach) : Except (HTTPErr × Sess × Disk) (Sess × Disk) :=
  let p := createAttachment s.current emailObj.id a.filename tempName
    (some a.mime_type) (some a.size_bytes)
  let stored := storedNameA emailObj.id p.1.id a.filename
  let s1 : Sess := ⟨s.committed, updateAttachmentStored p.2 p.1.id stored⟩
  if a.write_ok then
    .ok (s1, diskInsert d stored)
  else
    let d1 := if a.fragment_left then diskInsert d stored else d
    .error (⟨500, errDetailDisk a.filename a.err_msg⟩, Sess.rollback s1,
      diskRemove d1 stored)

/-- The attachment for-loop of run_email_check_job: saves each attachment in
order, propagating the first writer failure together with the session and disk
state at the point of failure. -/
def attachLoopA (emailObj : Email) : Sess → Disk → List ClientAttach →
    Except (HTTPErr × Sess × Disk) (Sess × Disk)
  | s, d, [] => .ok (s, d)
  | s, d, a :: rest =>
    match save_attachment_with_rollback s d emailObj a with
    | .ok (s1, d1) => attachLoopA emailObj s1 d1 rest
    | .error e => .error e

/-- The candidate for-loop of run_email_check_job: skip candidates with an
empty message identifier, already-stored identifiers, and candidates rejected
by the filter engine; persist the rest with their attachments, counting saved
messages.  A writer failure aborts the loop, carrying the saved count
accumulated so far. -/
def emailLoopA (filters : List EmailFilter) : Sess → Disk → Nat →
    List ClientEmail → Except (HTTPErr × Sess × Disk × Nat) (Sess × Disk × Nat)
  | s, d, n, [] => .ok (s, d, n)
  | s, d, n, em :: rest =>
    if em.message_id.isEmpty then emailLoopA filters s d n rest
    else if (get_by_message_id s.current em.message_id).isSome then
      emailLoopA filters s d n rest
    else if !(apply_filters_to_email (emailDataOf em) filters) then
      emailLoopA filters s d n rest
    else
      let p := createEmail s.current em.message_id em.sender
        (some em.recipient) em.cc em.subject (some em.body) em.received_at
      match attachLoopA p.1 ⟨s.committed, p.2⟩ d em.attachments with
      | .ok (s1, d1) => emailLoopA filters s1 d1 (n + 1) rest
      | .error (e, s1, d1) => .error (e, s1, d1, n)

/-- Common tail of run_email_check_job: finalize the run record over the
session and commit. -/
def finalizeRun (s : Sess) (d : Disk) (r : JobRun) : Sess × Disk × JobRun :=
  (Sess.commit ⟨s.committed, updateJobRun s.current r⟩, d, r)

/-- services.run_email_check_job.  The fetch argument stands for
EmailClient.fetch_unseen_emails_raw: the decoded candidate list, or the text
of the transport exception when fetching fails.  t0 and t1 are the start and
finish wall-clock readings. -/
def run_email_check_job (sess0 : Sess) (d0 : Disk)
    (fetch : Except Str (List ClientEmail)) (t0 t1 : Nat) :
    Sess × Disk × JobRun :=
  let pr := createJobRun sess0.current t0
  let s1 := Sess.commit ⟨sess0.committed, pr.2⟩
  match fetch with
  | .error msg =>
    finalizeRun (Sess.rollback s1) d0
      (finishJobRun pr.1 0 0 .error (some msg) t1)
  | .ok raws =>
    match emailLoopA (enabledFilters s1.current) s1 d0 0 raws with
    | .ok (s2, d2, saved) =>
      finalizeRun (Sess.commit s2) d2
        (finishJobRun pr.1 raws.length saved .success none t1)
    | .error (e, s2, d2, saved) =>
      finalizeRun (Sess.rollback s2) d2
        (finishJobRun pr.1 raws.length saved .error (some (strOfHTTP e)) t1)

/-- The placeholder stored name used by EmailFetchService before the real
name is derived. -/
def pendingName : Str := "PENDING".data

/-- The attachment for-loop of EmailFetchService.fetch_and_store_emails:
parts without a truthy filename are skipped; each kept part gets a metadata
row with a placeholder name, then the blob is written.  On success the stored
name is recorded; on failure the metadata row is deleted and the loop
continues — any fragmentary bytes at the target path are left behind. -/
def attachLoopB (emailObj : Email) : DB → Disk → List RawAttach → DB × Disk
  | db, d, [] => (db, d)
  | db, d, a :: rest =>
    if truthy a.filename then
      let fname := a.filename.getD []
      let p := createAttachment db emailObj.id fname pendingName
        (some a.mime_type) (some a.content.length)
      let stored := storedNameB emailObj.id p.1.id fname
      if a.write_ok then
        attachLoopB emailObj (updateAttachmentStored p.2 p.1.id stored)
          (diskInsert d stored) rest
      else
        attachLoopB emailObj (deleteAttachment p.2 p.1.id)
          (if a.fragment_left then diskInsert d stored else d) rest
    else attachLoopB emailObj db d rest

/-- The message for-loop of EmailFetchService.fetch_and_store_emails: skip
messages without a truthy Message-ID header and already-stored identifiers;
no filter rules are consulted.  A missing or unparseable date header is
replaced by the current time (the now argument).  The saved counter advances
for every persisted message, whether or not its attachments succeeded. -/
def emailLoopB (now : Nat) : DB → Disk → Nat → List RawEmail → DB × Disk × Nat
  | db, d, n, [] => (db, d, n)
  | db, d, n, em :: rest =>
    if !truthy em.message_id then emailLoopB now db d n rest
    else
      let mid := em.message_id.getD []
      if (get_by_message_id db mid).isSome then emailLoopB now db d n rest
      else
        let p := createEmail db mid (em.sender.getD []) em.recipient em.cc
          em.subject (some em.body) (some (em.date.getD now))
        let q := attachLoopB p.1 p.2 d em.attachments
        emailLoopB now q.1 q.2 (n + 1) rest

/-- EmailFetchService.fetch_and_store_emails, on the path where the mailbox
session opens and the search succeeds: create the run record (not yet
committed), process every decoded candidate, then finalize the run as success
and commit once.  The raws argument is the decoded candidate list, now the
current wall-clock reading used for missing dates, t0 and t1 the start and
finish timestamps. -/
def fetch_and_store_emails (sess0 : Sess) (d0 : Disk) (raws : List RawEmail)
    (now t0 t1 : Nat) : Sess × Disk × JobRun :=
  let pr := createJobRun sess0.current t0
  let q := emailLoopB now pr.2 d0 0 raws
  let r := finishJobRun pr.1 raws.length q.2.2 .success none t1
  (Sess.commit ⟨sess0.committed, updateJobRun q.1 r⟩, q.2.1, r)

/-- Modelled from the spec wording of claim C2, for comparison with
apply_filters_to_email: one configured condition of a rule. -/
def specCondHolds (cond : Option Str) (field : Option Str) : Bool :=
  if truthy cond then condTest (cond.getD []) field else true

/-- Modelled from the spec wording of claim C2: whether a rule has at least
one configured condition. -/
def specHasCond (f : EmailFilter) : Bool :=
  truthy f.from_address || truthy f.subject_contains || truthy f.body_contains

/-- Modelled from the spec wording of claim C2, for comparison with
apply_filters_to_email: if the rule list is empty every candidate is accepted;
otherwise the disjunction, over enabled rules with at least one configured
condition, of the conjunction of the configured conditions. -/
def specAccepts (em : EmailData) (rules : List EmailFilter) : Bool :=
  if rules = [] then true
  else rules.any fun f =>
    f.enabled && specHasCond f &&
      (specCondHolds f.from_address em.sender &&
       specCondHolds f.subject_contains em.subject &&
       specCondHolds f.body_contains em.body)

lemma condsOf_all (f : EmailFilter) (em : EmailData) :
    (condsOf f em).all id =
      (specCondHolds f.from_address em.sender &&
       specCondHolds f.subject_contains em.subject &&
       specCondHolds f.body_contains em.body) := by
  unfold condsOf specCondHolds
  cases h1 : truthy f.from_address <;> cases h2 : truthy f.subject_contains <;>
    cases h3 : truthy f.body_contains <;> simp [h1, h2, h3, Bool.and_assoc]

lemma filtersLoop_eq_any (em : EmailData) (rules : List EmailFilter) :
    filtersLoop em rules = rules.any (fun f =>
      f.enabled && specHasCond f &&
        (specCondHolds f.from_address em.sender &&
         specCondHolds f.subject_contains em.subject &&
         specCondHolds f.body_contains em.body)) := by
  induction rules with
  | nil => rfl
  | cons f rest ih =>
    rw [List.any_cons, ← ih]
    simp only [filtersLoop]
    cases he : f.enabled
    · simp [he]
    · cases hc : (truthy f.from_address || truthy f.subject_contains ||
        truthy f.body_contains)
      · simp [he, hc, specHasCond]
      · cases hall : (condsOf f em).all id <;>
          simp [he, hc, specHasCond, ← condsOf_all, hall]

/-- C2: apply_filters_to_email coincides with the reference semantics stated
in the spec: accept everything when the rule list is empty, otherwise the
disjunction over enabled rules having at least one configured condition of
the conjunction of their configured case-insensitive substring conditions,
with absent candidate fields read as empty strings, vacuous conditions true,
condition-free rules skipped and disabled rules never evaluated. -/
theorem apply_filters_matches_spec (em : EmailData) (rules : List EmailFilter) :
    apply_filters_to_email em rules = specAccepts em rules := by
  unfold apply_filters_to_email specAccepts
  cases rules with
  | nil => rfl
  | cons f rest => simpa using filtersLoop_eq_any em (f :: rest)

lemma digitChar_toNat_sub {d : Nat} (h : d < 10) :
    (Nat.digitChar d).toNat - 48 = d := by
  interval_cases d <;> decide

lemma digitChar_isDigit {d : Nat} (h : d < 10) : (Nat.digitChar d).isDigit := by
  interval_cases d <;> decide

lemma valFold_digitsAux :
    ∀ fuel n a, n < fuel →
      (digitsAux fuel n).foldl (fun a c => 10 * a + (c.toNat - 48)) a =
        a * 10 ^ (digitsAux fuel n).length + n := by
  intro fuel
  induction fuel with
  | zero => intro n a h; omega
  | succ fuel ih =>
    intro n a h
    by_cases h10 : n < 10
    · simp [digitsAux, h10, List.foldl, digitChar_toNat_sub h10]
      omega
    · have hn : 0 < n := by omega
      have hdiv : n / 10 < fuel :=
        lt_of_lt_of_le (Nat.div_lt_self hn (by omega)) (by omega)
      simp only [digitsAux, if_neg h10, List.foldl_append, List.foldl,
        List.length_append, List.length_cons, List.length_nil,
        ih (n / 10) a hdiv]
      have hmod : n % 10 < 10 := Nat.mod_lt _ (by omega)
      rw [digitChar_toNat_sub hmod]
      have := Nat.div_add_mod n 10
      ring_nf
      omega

lemma digitsAux_isDigit :
    ∀ fuel n, n < fuel → ∀ c ∈ digitsAux fuel n, c.isDigit := by
  intro fuel
  induction fuel with
  | zero => intro n h; omega
  | succ fuel ih =>
    intro n h c hc
    by_cases h10 : n < 10
    · simp [digitsAux, h10] at hc
      exact hc ▸ digitChar_isDigit h10
    · have hn : 0 < n := by omega
      have hdiv : n / 10 < fuel :=
        lt_of_lt_of_le (Nat.div_lt_self hn (by omega)) (by omega)
      simp only [digitsAux, if_neg h10, List.mem_append, List.mem_singleton] at hc
      rcases hc with hc | hc
      · exact ih (n / 10) hdiv c hc
      · exact hc ▸ digitChar_isDigit (Nat.mod_lt _ (by omega))

lemma valNum_zeros (k : Nat) (s : Str) :
    valNum (List.replicate k '0' ++ s) = valNum s := by
  induction k with
  | zero => rfl
  | succ k ih => simpa [valNum, List.replicate, List.foldl] using ih

lemma valNum_pad8 (n : Nat) : valNum (pad8 n) = n := by
  unfold pad8
  rw [valNum_zeros]
  unfold valNum digitsStr
  rw [valFold_digitsAux (n + 1) n 0 (Nat.lt_succ_self n)]
  simp

lemma pad8_isDigit (n : Nat) : ∀ c ∈ pad8 n, c.isDigit := by
  intro c hc
  unfold pad8 at hc
  rcases List.mem_append.mp hc with h | h
  · rw [List.eq_of_mem_replicate h]; decide
  · exact digitsAux_isDigit (n + 1) n (Nat.lt_succ_self n) c h

lemma pad8_inj {a b : Nat} (h : pad8 a = pad8 b) : a = b := by
  have := valNum_pad8 a
  rw [h, valNum_pad8] at this
  omega

lemma digit_block_split {sep : Char} (hsep : ¬ sep.isDigit) :
    ∀ s1 : Str, ∀ s2 r1 r2 : Str, (∀ c ∈ s1, c.isDigit) → (∀ c ∈ s2, c.isDigit) →
      s1 ++ sep :: r1 = s2 ++ sep :: r2 → s1 = s2 ∧ r1 = r2 := by
  intro s1
  induction s1 with
  | nil =>
    intro s2 r1 r2 _ hd2 heq
    cases s2 with
    | nil => simpa using heq
    | cons c t =>
      simp only [List.nil_append, List.cons_append, List.cons.injEq] at heq
      exact absurd (heq.1 ▸ hd2 c (by simp)) hsep
  | cons c t ih =>
    intro s2 r1 r2 hd1 hd2 heq
    cases s2 with
    | nil =>
      simp only [List.cons_append, List.nil_append, List.cons.injEq] at heq
      exact absurd (heq.1 ▸ hd1 c (by simp)) hsep
    | cons c' t' =>
      simp only [List.cons_append, List.cons.injEq] at heq
      obtain ⟨hs, hr⟩ := ih t' r1 r2 (fun x hx => hd1 x (by simp [hx]))
        (fun x hx => hd2 x (by simp [hx])) heq.2
      exact ⟨by simp [heq.1, hs], hr⟩

lemma stored_core_inj {sep : Char} (hsep : ¬ sep.isDigit)
    {e a e' a' : Nat} {f f' : Str}
    (h : idTag ++ pad8 e ++ '-' :: (pad8 a ++ sep :: f) =
      idTag ++ pad8 e' ++ '-' :: (pad8 a' ++ sep :: f')) : e = e' ∧ a = a' := by
  rw [List.append_assoc, List.append_assoc] at h
  have h1 := List.append_cancel_left h
  obtain ⟨he, hr⟩ := digit_block_split (by decide) (pad8 e) (pad8 e') _ _
    (pad8_isDigit e) (pad8_isDigit e') h1
  obtain ⟨ha, _⟩ := digit_block_split hsep (pad8 a) (pad8 a') f f'
    (pad8_isDigit a) (pad8_isDigit a') hr
  exact ⟨pad8_inj he, pad8_inj ha⟩

/-- C7: the stored attachment name is a deterministic function of the parent
message identifier, the attachment identifier and the original filename, and
in both derivations (services.save_attachment_with_rollback and
EmailFetchService.fetch_and_store_emails) it is injective in the pair of
numeric identifiers regardless of the filenames, so stored names are globally
unique across the blob store. -/
theorem stored_name_unique :
    (∀ e a f e' a' f', storedNameA e a f = storedNameA e' a' f' →
      e = e' ∧ a = a') ∧
    (∀ e a f e' a' f', storedNameB e a f = storedNameB e' a' f' →
      e = e' ∧ a = a') := by
  constructor
  · intro e a f e' a' f' h
    exact stored_core_inj (by decide) h
  · intro e a f e' a' f' h
    exact stored_core_inj (by decide) h

/-- Witness for stored_name_unique at concrete identifiers and filenames. -/
theorem stored_name_unique_witness :
    storedNameA 3 7 ['x'] = storedNameA 3 7 ['x'] ∧
      storedNameB 12 5 ['y'] = storedNameB 12 5 ['y'] ∧
      (3 = 3 ∧ 7 = 7) ∧ (12 = 12 ∧ 5 = 5) :=
  ⟨rfl, rfl, stored_name_unique.1 3 7 ['x'] 3 7 ['x'] rfl,
    stored_name_unique.2 12 5 ['y'] 12 5 ['y'] rfl⟩

lemma updateJobRun_emails (db : DB) (r : JobRun) :
    (updateJobRun db r).emails = db.emails := rfl

lemma updateJobRun_attachments (db : DB) (r : JobRun) :
    (updateJobRun db r).attachments = db.attachments := rfl

lemma createJobRun_emails (db : DB) (t0 : Nat) :
    (createJobRun db t0).2.emails = db.emails := rfl

lemma createJobRun_attachments (db : DB) (t0 : Nat) :
    (createJobRun db t0).2.attachments = db.attachments := rfl

lemma diskRemove_not_mem (d : Disk) (n : Str) : n ∉ diskRemove d n := by
  simp [diskRemove]

lemma strStartsWith_self_append : ∀ p t : Str, strStartsWith p (p ++ t) = true := by
  intro p
  induction p with
  | nil => intro t; rfl
  | cons c p ih => intro t; simp [strStartsWith, ih]

lemma isSubstr_mid : ∀ x p y : Str, isSubstr p (x ++ (p ++ y)) = true := by
  intro x
  induction x with
  | nil =>
    intro p y
    cases p with
    | nil =>
      cases y with
      | nil => rfl
      | cons c t => simp [isSubstr, strStartsWith]
    | cons c t =>
      have h : strStartsWith (c :: t) ((c :: t) ++ y) = true :=
        strStartsWith_self_append _ _
      rw [show (c :: t) ++ y = c :: (t ++ y) from rfl] at h
      simp [isSubstr, h]
  | cons c x ih =>
    intro p y
    simp [isSubstr, ih]

lemma isSubstr_errDetail (f c : Str) :
    isSubstr f (errDetailDisk f c) = true ∧
      isSubstr c (errDetailDisk f c) = true := by
  constructor
  · have h := isSubstr_mid (errDiskPre ++ [quoteChar]) f
      (quoteChar :: (errDiskMid ++ c))
    simpa [errDetailDisk, List.append_assoc] using h
  · have h := isSubstr_mid
      (errDetailDisk f []) c []
    simp only [List.append_nil] at h
    simpa [errDetailDisk, List.append_assoc] using h

lemma attachLoopA_ok_committed (emailObj : Email) :
    ∀ l s d s' d', attachLoopA emailObj s d l = .ok (s', d') →
      s'.committed = s.committed := by
  intro l
  induction l with
  | nil =>
    intro s d s' d' h
    simp only [attachLoopA] at h
    cases h
    rfl
  | cons a rest ih =>
    intro s d s' d' h
    simp only [attachLoopA] at h
    cases hs : save_attachment_with_rollback s d emailObj a with
    | error e => rw [hs] at h; cases h
    | ok v =>
      rw [hs] at h
      have h1 := ih v.1 v.2 s' d' h
      unfold save_attachment_with_rollback at hs
      split at hs
      · cases hs; exact h1
      · cases hs

lemma attachLoopA_err_sess (emailObj : Email) :
    ∀ l s d e s' d', attachLoopA emailObj s d l = .error (e, s', d') →
      s' = ⟨s.committed, s.committed⟩ := by
  intro l
  induction l with
  | nil => intro s d e s' d' h; simp [attachLoopA] at h
  | cons a rest ih =>
    intro s d e s' d' h
    simp only [attachLoopA] at h
    cases hs : save_attachment_with_rollback s d emailObj a with
    | error v =>
      rw [hs] at h
      cases h
      unfold save_attachment_with_rollback at hs
      split at hs
      · cases hs
      · cases hs; rfl
    | ok v =>
      rw [hs] at h
      have h1 := ih v.1 v.2 e s' d' h
      unfold save_attachment_with_rollback at hs
      split at hs
      · cases hs; exact h1
      · cases hs

lemma emailLoopA_ok_committed (filters : List EmailFilter) :
    ∀ l s d n s' d' n', emailLoopA filters s d n l = .ok (s', d', n') →
      s'.committed = s.committed := by
  intro l
  induction l with
  | nil =>
    intro s d n s' d' n' h
    simp only [emailLoopA] at h
    cases h
    rfl
  | cons em rest ih =>
    intro s d n s' d' n' h
    simp only [emailLoopA] at h
    split at h
    · exact ih _ _ _ _ _ _ h
    · split at h
      · exact ih _ _ _ _ _ _ h
      · split at h
        · exact ih _ _ _ _ _ _ h
        · cases hA : attachLoopA _ ⟨s.committed, _⟩ d em.attachments with
          | error v => rw [hA] at h; cases h
          | ok v =>
            rw [hA] at h
            have h1 := ih _ _ _ _ _ _ h
            have h2 := attachLoopA_ok_committed _ _ _ _ _ _ hA
            rw [h1, h2]

lemma emailLoopA_err_sess (filters : List EmailFilter) :
    ∀ l s d n e s' d' n', emailLoopA filters s d n l = .error (e, s', d', n') →
      s' = ⟨s.committed, s.committed⟩ := by
  intro l
  induction l with
  | nil => intro s d n e s' d' n' h; simp [emailLoopA] at h
  | cons em rest ih =>
    intro s d n e s' d' n' h
    simp only [emailLoopA] at h
    split at h
    · exact ih _ _ _ _ _ _ _ h
    · split at h
      · exact ih _ _ _ _ _ _ _ h
      · split at h
        · exact ih _ _ _ _ _ _ _ h
        · cases hA : attachLoopA _ ⟨s.committed, _⟩ d em.attachments with
          | error v =>
            rw [hA] at h
            cases h
            have := attachLoopA_err_sess _ _ _ _ _ _ _ hA
            simpa using this
          | ok v =>
            rw [hA] at h
            have h1 := ih _ _ _ _ _ _ _ h
            have h2 := attachLoopA_ok_committed _ _ _ _ _ _ hA
            rw [h1, h2]

lemma attachLoopA_append (emailObj : Email) :
    ∀ l1 l2 : List ClientAttach, ∀ s d,
      attachLoopA emailObj s d (l1 ++ l2) =
        match attachLoopA emailObj s d l1 with
        | .ok (s', d') => attachLoopA emailObj s' d' l2
        | .error e => .error e := by
  intro l1
  induction l1 with
  | nil => intro l2 s d; simp [attachLoopA]
  | cons a rest ih =>
    intro l2 s d
    simp only [List.cons_append, attachLoopA]
    cases hs : save_attachment_with_rollback s d emailObj a with
    | error e => rfl
    | ok v => exact ih l2 v.1 v.2

lemma emailLoopA_append (filters : List EmailFilter) :
    ∀ l1 l2 : List ClientEmail, ∀ s d n,
      emailLoopA filters s d n (l1 ++ l2) =
        match emailLoopA filters s d n l1 with
        | .ok (s', d', n') => emailLoopA filters s' d' n' l2
        | .error e => .error e := by
  intro l1
  induction l1 with
  | nil => intro l2 s d n; simp [emailLoopA]
  | cons em rest ih =>
    intro l2 s d n
    simp only [List.cons_append, emailLoopA]
    split
    · exact ih l2 s d n
    · split
      · exact ih l2 s d n
      · split
        · exact ih l2 s d n
        · cases hA : attachLoopA _ ⟨s.committed, _⟩ d em.attachments with
          | error v => rfl
          | ok v => exact ih l2 v.1 v.2 (n + 1)

/-- Session state right after run_email_check_job persists the fresh run
record: the run row is created on the current view and committed. -/
def startSession (sess0 : Sess) (t0 : Nat) : Sess :=
  Sess.commit ⟨sess0.committed, (createJobRun sess0.current t0).2⟩

/-- The enabled filter rules loaded by run_email_check_job. -/
def startFilters (sess0 : Sess) (t0 : Nat) : List EmailFilter :=
  enabledFilters (startSession sess0 t0).current

lemma run_email_check_job_ok_eq (sess0 : Sess) (d0 : Disk)
    (raws : List ClientEmail) (t0 t1 : Nat) :
    run_email_check_job sess0 d0 (.ok raws) t0 t1 =
      match emailLoopA (startFilters sess0 t0) (startSession sess0 t0) d0 0 raws with
      | .ok (s2, d2, saved) =>
        finalizeRun (Sess.commit s2) d2
          (finishJobRun (createJobRun sess0.current t0).1 raws.length saved
            .success none t1)
      | .error (e, s2, d2, saved) =>
        finalizeRun (Sess.rollback s2) d2
          (finishJobRun (createJobRun sess0.current t0).1 raws.length saved
            .error (some (strOfHTTP e)) t1) := rfl

/-- C1: when the blob write of an attachment fails inside
save_attachment_with_rollback, the finalized run carries status error with an
error message built from the original filename and the underlying cause (both
occur in the message as substrings), the committed record store holds no
email or attachment row beyond what was committed before the run — in
particular no metadata row referencing the failed write — and no blob exists
at the derived stored path.  The hypotheses place the failing attachment at an
arbitrary position: pre is the prefix of candidates already processed, apre
the attachment prefix already written for the in-flight message, and the
failing attachment a passes the identifier, dedup and filter gates. -/
theorem attachment_atomicity
    (sess0 : Sess) (d0 : Disk) (t0 t1 : Nat)
    (pre post : List ClientEmail) (em : ClientEmail)
    (apre apost : List ClientAttach) (a : ClientAttach)
    (S S2 : Sess) (D D2 : Disk) (n : Nat)
    (hfresh : sess0.current = sess0.committed)
    (hpre : emailLoopA (startFilters sess0 t0) (startSession sess0 t0) d0 0 pre
      = .ok (S, D, n))
    (hid : em.message_id ≠ [])
    (hdup : get_by_message_id S.current em.message_id = none)
    (hfilt : apply_filters_to_email (emailDataOf em) (startFilters sess0 t0) = true)
    (hatt : em.attachments = apre ++ a :: apost)
    (hapre : attachLoopA
      (createEmail S.current em.message_id em.sender (some em.recipient)
        em.cc em.subject (some em.body) em.received_at).1
      ⟨S.committed,
        (createEmail S.current em.message_id em.sender (some em.recipient)
          em.cc em.subject (some em.body) em.received_at).2⟩
      D apre = .ok (S2, D2))
    (hfail : a.write_ok = false) :
    (run_email_check_job sess0 d0 (.ok (pre ++ em :: post)) t0 t1).2.2.status
        = .error ∧
    (run_email_check_job sess0 d0 (.ok (pre ++ em :: post)) t0 t1).2.2.error_message
        = some (strOfHTTP ⟨500, errDetailDisk a.filename a.err_msg⟩) ∧
    isSubstr a.filename (errDetailDisk a.filename a.err_msg) = true ∧
    isSubstr a.err_msg (errDetailDisk a.filename a.err_msg) = true ∧
    (run_email_check_job sess0 d0 (.ok (pre ++ em :: post)) t0 t1).1.committed.attachments
        = sess0.committed.attachments ∧
    (run_email_check_job sess0 d0 (.ok (pre ++ em :: post)) t0 t1).1.committed.emails
        = sess0.committed.emails ∧
    storedNameA
        (createEmail S.current em.message_id em.sender (some em.recipient)
          em.cc em.subject (some em.body) em.received_at).1.id
        (nextId (S2.current.attachments.map (·.id))) a.filename
      ∉ (run_email_check_job sess0 d0 (.ok (pre ++ em :: post)) t0 t1).2.1 := by
  have hid' : em.message_id.isEmpty = false := by
    cases h : em.message_id with
    | nil => exact absurd h hid
    | cons c t => rfl
  set emailObj := (createEmail S.current em.message_id em.sender
    (some em.recipient) em.cc em.subject (some em.body) em.received_at).1 with hobj
  set stored := storedNameA emailObj.id
    (nextId (S2.current.attachments.map (·.id))) a.filename with hstored
  set errv : HTTPErr := ⟨500, errDetailDisk a.filename a.err_msg⟩ with herrv
  set dfin := diskRemove
    (if a.fragment_left then diskInsert D2 stored else D2) stored with hdfin
  have hsave : save_attachment_with_rollback S2 D2 emailObj a =
      .error (errv, ⟨S2.committed, S2.committed⟩, dfin) := by
    unfold save_attachment_with_rollback
    rw [hfail]
    simp only [Bool.false_eq_true, if_false]
    rfl
  have hstep : emailLoopA (startFilters sess0 t0) S D n (em :: post) =
      .error (errv, ⟨S2.committed, S2.committed⟩, dfin, n) := by
    simp only [emailLoopA, hid', hdup, hfilt, Option.isSome_none,
      Bool.false_eq_true, if_false, Bool.not_true]
    rw [hatt, attachLoopA_append, hapre]
    simp only [attachLoopA, hsave]
  have hloop : emailLoopA (startFilters sess0 t0) (startSession sess0 t0) d0 0
      (pre ++ em :: post) =
      .error (errv, ⟨S2.committed, S2.committed⟩, dfin, n) := by
    rw [emailLoopA_append, hpre]
    exact hstep
  have hrun : run_email_check_job sess0 d0 (.ok (pre ++ em :: post)) t0 t1 =
      finalizeRun (Sess.rollback ⟨S2.committed, S2.committed⟩) dfin
        (finishJobRun (createJobRun sess0.current t0).1
          (pre ++ em :: post).length n .error (some (strOfHTTP errv)) t1) := by
    rw [run_email_check_job_ok_eq, hloop]
  have hcomm : S2.committed = (createJobRun sess0.current t0).2 := by
    have h1 := attachLoopA_ok_committed _ _ _ _ _ _ hapre
    have h2 := emailLoopA_ok_committed _ _ _ _ _ _ _ _ hpre
    rw [h1]
    simpa [startSession, Sess.commit] using h2
  refine ⟨?_, ?_, (isSubstr_errDetail a.filename a.err_msg).1,
    (isSubstr_errDetail a.filename a.err_msg).2, ?_, ?_, ?_⟩
  · rw [hrun]; rfl
  · rw [hrun]; rfl
  · rw [hrun]
    show (updateJobRun S2.committed _).attachments = sess0.committed.attachments
    rw [updateJobRun_attachments, hcomm, createJobRun_attachments, hfresh]
  · rw [hrun]
    show (updateJobRun S2.committed _).emails = sess0.committed.emails
    rw [updateJobRun_emails, hcomm, createJobRun_emails, hfresh]
  · rw [hrun]
    show stored ∉ dfin
    rw [hdfin]
    exact diskRemove_not_mem _ _

/-- Empty fresh store used by concrete witnesses. -/
def emptyDB : DB := ⟨[], [], [], []⟩

/-- Fresh session over the empty store. -/
def freshSess : Sess := ⟨emptyDB, emptyDB⟩

/-- A concrete attachment whose blob write fails leaving fragmentary bytes. -/
def c1att : ClientAttach := ⟨['f'], ['t'], [7], 1, false, true, ['E']⟩

/-- A concrete candidate carrying the failing attachment. -/
def c1em : ClientEmail := ⟨['m'], ['s'], ['r'], none, none, ['b'], some 3, [c1att]⟩

/-- Witness for attachment_atomicity: one candidate whose single attachment
write fails; the finalized run is an error and the committed store stays
empty. -/
theorem attachment_atomicity_witness :
    c1att.write_ok = false ∧
    (run_email_check_job freshSess [] (.ok [c1em]) 10 11).2.2.status = .error ∧
    (run_email_check_job freshSess [] (.ok [c1em]) 10 11).1.committed.emails = [] ∧
    (run_email_check_job freshSess [] (.ok [c1em]) 10 11).1.committed.attachments = [] := by
  have h := attachment_atomicity freshSess [] 10 11 [] [] c1em [] [] c1att
    (startSession freshSess 10)
    ⟨(startSession freshSess 10).committed,
      (createEmail (startSession freshSess 10).current c1em.message_id
        c1em.sender (some c1em.recipient) c1em.cc c1em.subject
        (some c1em.body) c1em.received_at).2⟩
    [] [] 0 rfl rfl (by decide) rfl rfl rfl rfl rfl
  exact ⟨rfl, h.1, h.2.2.2.2.2.1, h.2.2.2.2.1⟩

/-- A concrete candidate with no attachments, distinct identifier. -/
def c4em : ClientEmail := ⟨['a'], ['s'], ['r'], none, none, ['b'], some 2, []⟩

/-- C4 counterexample: a run over two candidates where the first is persisted
(messages_saved reaches 1) and the second fails its attachment blob write.
The run finalizes with status error and the committed record store contains
NO email row at all: the message persisted for the earlier candidate of the
same run does not remain, refuting the claim that the rollback is scoped to
the in-flight message only. -/
theorem rollback_scope_counterexample :
    (run_email_check_job freshSess [] (.ok [c4em, c1em]) 10 11).2.2.status
        = .error ∧
    (run_email_check_job freshSess [] (.ok [c4em, c1em]) 10 11).2.2.messages_saved
        = 1 ∧
    (run_email_check_job freshSess [] (.ok [c4em, c1em]) 10 11).1.committed.emails
        = [] := by
  refine ⟨by decide, by decide, by decide⟩

lemma run_email_check_job_err_eq (sess0 : Sess) (d0 : Disk) (msg : Str)
    (t0 t1 : Nat) :
    run_email_check_job sess0 d0 (.error msg) t0 t1 =
      finalizeRun (Sess.rollback (startSession sess0 t0)) d0
        (finishJobRun (createJobRun sess0.current t0).1 0 0 .error
          (some msg) t1) := rfl

/-- C4 amended: when run_email_check_job finalizes with status error, the
rollback covers the entire run's uncommitted writes — message and attachment
rows persisted for candidates processed earlier in the same run are rolled
back together with the in-flight message, because the pipeline commits message
rows only once at the end of a successful run; rows committed before the run
(by earlier runs) remain untouched. -/
theorem run_error_rolls_back_entire_run (sess0 : Sess) (d0 : Disk)
    (fetch : Except Str (List ClientEmail)) (t0 t1 : Nat)
    (hfresh : sess0.current = sess0.committed)
    (herr : (run_email_check_job sess0 d0 fetch t0 t1).2.2.status = .error) :
    (run_email_check_job sess0 d0 fetch t0 t1).1.committed.emails
        = sess0.committed.emails ∧
    (run_email_check_job sess0 d0 fetch t0 t1).1.committed.attachments
        = sess0.committed.attachments := by
  cases fetch with
  | error msg =>
    rw [run_email_check_job_err_eq]
    constructor
    · show (updateJobRun (createJobRun sess0.current t0).2 _).emails = _
      rw [updateJobRun_emails, createJobRun_emails, hfresh]
    · show (updateJobRun (createJobRun sess0.current t0).2 _).attachments = _
      rw [updateJobRun_attachments, createJobRun_attachments, hfresh]
  | ok raws =>
    rw [run_email_check_job_ok_eq] at herr ⊢
    cases hl : emailLoopA (startFilters sess0 t0) (startSession sess0 t0)
      d0 0 raws with
    | ok v =>
      obtain ⟨s2, d2, saved⟩ := v
      rw [hl] at herr
      simp [finalizeRun, finishJobRun] at herr
    | error v =>
      obtain ⟨e, s2, d2, saved⟩ := v
      have hs := emailLoopA_err_sess _ _ _ _ _ _ _ _ _ hl
      rw [hs]
      constructor
      · show (updateJobRun (createJobRun sess0.current t0).2 _).emails = _
        rw [updateJobRun_emails, createJobRun_emails, hfresh]
      · show (updateJobRun (createJobRun sess0.current t0).2 _).attachments = _
        rw [updateJobRun_attachments, createJobRun_attachments, hfresh]

/-- Witness for run_error_rolls_back_entire_run at the two-candidate failing
run: the committed store after the error run equals the store before it. -/
theorem run_error_rolls_back_entire_run_witness :
    freshSess.current = freshSess.committed ∧
    (run_email_check_job freshSess [] (.ok [c4em, c1em]) 10 11).2.2.status
        = .error ∧
    (run_email_check_job freshSess [] (.ok [c4em, c1em]) 10 11).1.committed.emails
        = [] :=
  ⟨rfl, by decide,
    (run_error_rolls_back_entire_run freshSess [] (.ok [c4em, c1em]) 10 11
      rfl (by decide)).1⟩

lemma nextId_gt (ids : List Nat) : ∀ x ∈ ids, x < nextId ids := by
  unfold nextId
  induction ids with
  | nil => intro x hx; cases hx
  | cons a t ih =>
    intro x hx
    rcases List.mem_cons.mp hx with h | h
    · subst h; simp [List.foldr]; omega
    · have := ih x h
      simp only [List.foldr] at *
      omega

lemma map_update_append (l0 : List JobRun) (jr0 r : JobRun)
    (hid : r.id = jr0.id) (hgt : ∀ x ∈ l0, x.id < jr0.id) :
    (l0 ++ [jr0]).map (fun x => if x.id = r.id then r else x) = l0 ++ [r] := by
  rw [List.map_append]
  congr 1
  · have : ∀ x ∈ l0, (fun x => if x.id = r.id then r else x) x = id x := by
      intro x hx
      have := hgt x hx
      simp only [id]
      rw [if_neg]
      omega
    rw [List.map_congr_left this, List.map_id]
  · simp [hid]

lemma attachLoopA_ok_pres (emailObj : Email) :
    ∀ l s d s' d', attachLoopA emailObj s d l = .ok (s', d') →
      s'.current.emails = s.current.emails ∧
      s'.current.filters = s.current.filters ∧
      s'.current.job_runs = s.current.job_runs := by
  intro l
  induction l with
  | nil =>
    intro s d s' d' h
    simp only [attachLoopA] at h
    cases h
    exact ⟨rfl, rfl, rfl⟩
  | cons a rest ih =>
    intro s d s' d' h
    simp only [attachLoopA] at h
    cases hs : save_attachment_with_rollback s d emailObj a with
    | error e => rw [hs] at h; cases h
    | ok v =>
      rw [hs] at h
      have h1 := ih v.1 v.2 s' d' h
      unfold save_attachment_with_rollback at hs
      split at hs
      · cases hs; exact h1
      · cases hs

lemma emailLoopA_ok_pres (filters : List EmailFilter) :
    ∀ l s d n s' d' n', emailLoopA filters s d n l = .ok (s', d', n') →
      s'.current.filters = s.current.filters ∧
      s'.current.job_runs = s.current.job_runs := by
  intro l
  induction l with
  | nil =>
    intro s d n s' d' n' h
    simp only [emailLoopA] at h
    cases h
    exact ⟨rfl, rfl⟩
  | cons em rest ih =>
    intro s d n s' d' n' h
    simp only [emailLoopA] at h
    split at h
    · exact ih _ _ _ _ _ _ h
    · split at h
      · exact ih _ _ _ _ _ _ h
      · split at h
        · exact ih _ _ _ _ _ _ h
        · cases hA : attachLoopA _ ⟨s.committed, _⟩ d em.attachments with
          | error v => rw [hA] at h; cases h
          | ok v =>
            rw [hA] at h
            have h1 := ih _ _ _ _ _ _ h
            have h2 := attachLoopA_ok_pres _ _ _ _ _ _ hA
            exact ⟨h1.1.trans h2.2.1, h1.2.trans h2.2.2⟩

lemma run_appends_finalized (sess0 : Sess) (d0 : Disk)
    (fetch : Except Str (List ClientEmail)) (t0 t1 : Nat)
    (hfresh : sess0.current = sess0.committed) :
    (run_email_check_job sess0 d0 fetch t0 t1).1.committed.job_runs
      = sess0.committed.job_runs ++ [(run_email_check_job sess0 d0 fetch t0 t1).2.2] ∧
    (run_email_check_job sess0 d0 fetch t0 t1).2.2.id
      = (createJobRun sess0.current t0).1.id ∧
    (run_email_check_job sess0 d0 fetch t0 t1).2.2.started_at = t0 ∧
    (run_email_check_job sess0 d0 fetch t0 t1).2.2.finished_at = some t1 ∧
    ((run_email_check_job sess0 d0 fetch t0 t1).2.2.status = .success ∨
     (run_email_check_job sess0 d0 fetch t0 t1).2.2.status = .error) := by
  have hgt : ∀ x ∈ sess0.current.job_runs,
      x.id < (createJobRun sess0.current t0).1.id := by
    intro x hx
    exact nextId_gt _ _ (List.mem_map_of_mem (·.id) hx)
  have key : ∀ (X : DB) (r : JobRun),
      X.job_runs = sess0.current.job_runs ++ [(createJobRun sess0.current t0).1] →
      r.id = (createJobRun sess0.current t0).1.id →
      (updateJobRun X r).job_runs = sess0.committed.job_runs ++ [r] := by
    intro X r hX hr
    show X.job_runs.map _ = _
    rw [hX, ← hfresh]
    exact map_update_append _ _ _ hr hgt
  refine ⟨?_, ?_, ?_, ?_, ?_⟩ <;> cases fetch with
  | error msg =>
    first
    | exact key _ _ rfl rfl
    | rfl
    | exact Or.inr rfl
  | ok raws =>
    rw [run_email_check_job_ok_eq]
    cases hl : emailLoopA (startFilters sess0 t0) (startSession sess0 t0)
      d0 0 raws with
    | ok v =>
      obtain ⟨s2, d2, saved⟩ := v
      have hpres := emailLoopA_ok_pres _ _ _ _ _ _ _ _ hl
      first
      | exact key s2.current _ hpres.2 rfl
      | rfl
      | exact Or.inl rfl
    | error v =>
      obtain ⟨e, s2, d2, saved⟩ := v
      have hs := emailLoopA_err_sess _ _ _ _ _ _ _ _ _ hl
      rw [hs]
      first
      | exact key _ _ rfl rfl
      | rfl
      | exact Or.inr rfl

/-- C5: every invocation of run_email_check_job creates exactly one run
record — initially in running state with a start timestamp and no end
timestamp — and finalizes that same record exactly once before returning, on
the normal path and on the exception path alike: the committed run history
after the run is the previous history with exactly the returned record
appended, carrying the end timestamp and a status that is success or error;
pre-existing run records are never deleted or modified, so no finalized
status ever reverts to running. -/
theorem run_record_lifecycle (sess0 : Sess) (d0 : Disk)
    (fetch : Except Str (List ClientEmail)) (t0 t1 : Nat)
    (hfresh : sess0.current = sess0.committed) :
    (createJobRun sess0.current t0).1.status = .running ∧
    (createJobRun sess0.current t0).1.started_at = t0 ∧
    (createJobRun sess0.current t0).1.finished_at = none ∧
    (run_email_check_job sess0 d0 fetch t0 t1).1.committed.job_runs
      = sess0.committed.job_runs ++ [(run_email_check_job sess0 d0 fetch t0 t1).2.2] ∧
    (run_email_check_job sess0 d0 fetch t0 t1).2.2.id
      = (createJobRun sess0.current t0).1.id ∧
    (run_email_check_job sess0 d0 fetch t0 t1).2.2.started_at = t0 ∧
    (run_email_check_job sess0 d0 fetch t0 t1).2.2.finished_at = some t1 ∧
    ((run_email_check_job sess0 d0 fetch t0 t1).2.2.status = .success ∨
     (run_email_check_job sess0 d0 fetch t0 t1).2.2.status = .error) := by
  have h := run_appends_finalized sess0 d0 fetch t0 t1 hfresh
  exact ⟨rfl, rfl, rfl, h.1, h.2.1, h.2.2.1, h.2.2.2.1, h.2.2.2.2⟩

/-- Witness for run_record_lifecycle: a fresh store and one clean candidate;
the run history afterwards is exactly the one finalized record. -/
theorem run_record_lifecycle_witness :
    freshSess.current = freshSess.committed ∧
    (run_email_check_job freshSess [] (.ok [c4em]) 10 11).1.committed.job_runs
      = freshSess.committed.job_runs
        ++ [(run_email_check_job freshSess [] (.ok [c4em]) 10 11).2.2] ∧
    ((run_email_check_job freshSess [] (.ok [c4em]) 10 11).2.2.status = .success ∨
     (run_email_check_job freshSess [] (.ok [c4em]) 10 11).2.2.status = .error) := by
  have h := run_record_lifecycle freshSess [] (.ok [c4em]) 10 11 rfl
  exact ⟨rfl, h.2.2.2.1, h.2.2.2.2.2.2.2⟩

lemma getLast_step (acc : Option JobRun) (r : JobRun) :
    (fun acc r =>
      match acc with
      | none => some r
      | some m => if m.id < r.id then some r else some m) acc r =
      match acc with
      | none => some r
      | some m => if m.id < r.id then some r else some m := rfl

lemma getLast_append_gt :
    ∀ (l : List JobRun) (x : JobRun) (acc : Option JobRun),
      (∀ m, acc = some m → m.id < x.id) → (∀ r ∈ l, r.id < x.id) →
      (l ++ [x]).foldl
        (fun acc r =>
          match acc with
          | none => some r
          | some m => if m.id < r.id then some r else some m) acc = some x := by
  intro l
  induction l with
  | nil =>
    intro x acc hacc _
    cases acc with
    | none => rfl
    | some m =>
      have := hacc m rfl
      simp only [List.nil_append, List.foldl]
      rw [if_pos this]
  | cons r t ih =>
    intro x acc hacc hl
    simp only [List.cons_append, List.foldl]
    apply ih
    · intro m hm
      cases acc with
      | none =>
        simp only at hm
        cases hm
        exact hl r (by simp)
      | some m0 =>
        have h0 := hacc m0 rfl
        have hr := hl r (by simp)
        simp only at hm
        split at hm
        · cases hm; exact hr
        · cases hm; exact h0
    · intro y hy
      exact hl y (by simp [hy])

/-- C8: get_job_metrics is the read-only view derived from the run history:
totals are the sums of messages_fetched and messages_saved over all run
records (zero when there are none, all fields empty then); after a run of
run_email_check_job the metrics report that run's start and end timestamps,
status and error, the totals grow by exactly that run's final counts, and the
reported status is never running. -/
theorem metrics_after_run (sess0 : Sess) (d0 : Disk)
    (fetch : Except Str (List ClientEmail)) (t0 t1 : Nat)
    (hfresh : sess0.current = sess0.committed) :
    (∀ db : DB,
      (get_job_metrics db).total_messages_fetched
          = (db.job_runs.map (·.messages_fetched)).sum ∧
      (get_job_metrics db).total_messages_saved
          = (db.job_runs.map (·.messages_saved)).sum) ∧
    (∀ db : DB, db.job_runs = [] →
      get_job_metrics db = ⟨none, none, none, none, 0, 0⟩) ∧
    (get_job_metrics (run_email_check_job sess0 d0 fetch t0 t1).1.committed).total_messages_fetched
        = (sess0.committed.job_runs.map (·.messages_fetched)).sum
          + (run_email_check_job sess0 d0 fetch t0 t1).2.2.messages_fetched ∧
    (get_job_metrics (run_email_check_job sess0 d0 fetch t0 t1).1.committed).total_messages_saved
        = (sess0.committed.job_runs.map (·.messages_saved)).sum
          + (run_email_check_job sess0 d0 fetch t0 t1).2.2.messages_saved ∧
    (get_job_metrics (run_email_check_job sess0 d0 fetch t0 t1).1.committed).last_run_start
        = some t0 ∧
    (get_job_metrics (run_email_check_job sess0 d0 fetch t0 t1).1.committed).last_run_end
        = some t1 ∧
    (get_job_metrics (run_email_check_job sess0 d0 fetch t0 t1).1.committed).last_status
        = some (run_email_check_job sess0 d0 fetch t0 t1).2.2.status ∧
    (get_job_metrics (run_email_check_job sess0 d0 fetch t0 t1).1.committed).last_error
        = (run_email_check_job sess0 d0 fetch t0 t1).2.2.error_message ∧
    (get_job_metrics (run_email_check_job sess0 d0 fetch t0 t1).1.committed).last_status
        ≠ some .running := by
  have happ := run_appends_finalized sess0 d0 fetch t0 t1 hfresh
  have hgt : ∀ x ∈ sess0.committed.job_runs,
      x.id < (run_email_check_job sess0 d0 fetch t0 t1).2.2.id := by
    intro x hx
    rw [happ.2.1]
    rw [← hfresh] at hx
    exact nextId_gt _ _ (List.mem_map_of_mem (·.id) hx)
  have hlast : getLast (run_email_check_job sess0 d0 fetch t0 t1).1.committed
      = some (run_email_check_job sess0 d0 fetch t0 t1).2.2 := by
    unfold getLast
    rw [happ.1]
    exact getLast_append_gt _ _ none (by intro m hm; cases hm) hgt
  refine ⟨fun db => ⟨rfl, rfl⟩, ?_, ?_, ?_, ?_, ?_, ?_, ?_, ?_⟩
  · intro db h
    simp [get_job_metrics, get_aggregated_metrics, getLast, h]
  · show ((run_email_check_job sess0 d0 fetch t0 t1).1.committed.job_runs.map
      (·.messages_fetched)).sum = _
    rw [happ.1]
    simp
  · show ((run_email_check_job sess0 d0 fetch t0 t1).1.committed.job_runs.map
      (·.messages_saved)).sum = _
    rw [happ.1]
    simp
  · show (getLast _).map (·.started_at) = some t0
    rw [hlast]
    show some ((run_email_check_job sess0 d0 fetch t0 t1).2.2.started_at) = some t0
    rw [happ.2.2.1]
  · show (getLast _).bind (·.finished_at) = some t1
    rw [hlast]
    show (run_email_check_job sess0 d0 fetch t0 t1).2.2.finished_at = some t1
    exact happ.2.2.2.1
  · show (getLast _).map (·.status) = _
    rw [hlast]
    rfl
  · show (getLast _).bind (·.error_message) = _
    rw [hlast]
    rfl
  · show (getLast _).map (·.status) ≠ some .running
    rw [hlast]
    rcases happ.2.2.2.2 with h | h <;> simp [h]

/-- Witness for metrics_after_run: after one clean run over a fresh store the
metrics report the run's start time and a non-running status. -/
theorem metrics_after_run_witness :
    freshSess.current = freshSess.committed ∧
    (get_job_metrics
      (run_email_check_job freshSess [] (.ok [c4em]) 10 11).1.committed).last_run_start
        = some 10 ∧
    (get_job_metrics
      (run_email_check_job freshSess [] (.ok [c4em]) 10 11).1.committed).last_status
        ≠ some .running := by
  have h := metrics_after_run freshSess [] (.ok [c4em]) 10 11 rfl
  exact ⟨rfl, h.2.2.2.2.1, h.2.2.2.2.2.2.2.2⟩

lemma emailLoopA_skip_empty (filters : List EmailFilter) (em : ClientEmail)
    (hid : em.message_id = []) (s : Sess) (d : Disk) (n : Nat)
    (rest : List ClientEmail) :
    emailLoopA filters s d n (em :: rest) = emailLoopA filters s d n rest := by
  simp [emailLoopA, hid]

lemma emailLoopA_new_emails (filters : List EmailFilter) :
    ∀ l s d n s' d' n', emailLoopA filters s d n l = .ok (s', d', n') →
      ∀ e ∈ s'.current.emails, e ∈ s.current.emails ∨ e.message_id ≠ [] := by
  intro l
  induction l with
  | nil =>
    intro s d n s' d' n' h
    simp only [emailLoopA] at h
    cases h
    intro e he
    exact Or.inl he
  | cons em rest ih =>
    intro s d n s' d' n' h
    simp only [emailLoopA] at h
    by_cases h1 : em.message_id.isEmpty = true
    · rw [if_pos h1] at h; exact ih _ _ _ _ _ _ h
    · rw [if_neg h1] at h
      by_cases h2 : (get_by_message_id s.current em.message_id).isSome = true
      · rw [if_pos h2] at h; exact ih _ _ _ _ _ _ h
      · rw [if_neg h2] at h
        by_cases h3 :
            (!apply_filters_to_email (emailDataOf em) filters) = true
        · rw [if_pos h3] at h; exact ih _ _ _ _ _ _ h
        · rw [if_neg h3] at h
          cases hA : attachLoopA _ ⟨s.committed, _⟩ d em.attachments with
          | error v => rw [hA] at h; cases h
          | ok v =>
            rw [hA] at h
            intro e he
            rcases ih _ _ _ _ _ _ h e he with hm | hm
            · have hpr := (attachLoopA_ok_pres _ _ _ _ _ _ hA).1
              rw [hpr] at hm
              rcases List.mem_append.mp hm with h4 | h4
              · exact Or.inl h4
              · right
                have h5 : e.message_id = em.message_id := by
                  rcases List.mem_singleton.mp h4 with rfl
                  rfl
                rw [h5]
                intro hc
                rw [hc] at h1
                exact h1 rfl
            · exact Or.inr hm

/-- C6: a fetched candidate whose decoded external identifier is empty is
counted in messages_fetched but produces no message record and no
messages_saved increment, at every position of the fetched sequence: the run
is indistinguishable — in committed emails and attachments, blob store and
saved count — from the run over the same sequence with that candidate
removed, its fetched count is exactly one higher, and every committed email
with an empty identifier already existed before the run. -/
theorem missing_identifier_skipped (sess0 : Sess) (d0 : Disk) (t0 t1 : Nat)
    (pre post : List ClientEmail) (em : ClientEmail)
    (hid : em.message_id = [])
    (hfresh : sess0.current = sess0.committed) :
    (run_email_check_job sess0 d0 (.ok (pre ++ em :: post)) t0 t1).2.2.messages_fetched
        = (pre ++ em :: post).length ∧
    (run_email_check_job sess0 d0 (.ok (pre ++ em :: post)) t0 t1).2.2.messages_fetched
        = (run_email_check_job sess0 d0 (.ok (pre ++ post)) t0 t1).2.2.messages_fetched + 1 ∧
    (run_email_check_job sess0 d0 (.ok (pre ++ em :: post)) t0 t1).2.2.messages_saved
        = (run_email_check_job sess0 d0 (.ok (pre ++ post)) t0 t1).2.2.messages_saved ∧
    (run_email_check_job sess0 d0 (.ok (pre ++ em :: post)) t0 t1).1.committed.emails
        = (run_email_check_job sess0 d0 (.ok (pre ++ post)) t0 t1).1.committed.emails ∧
    (run_email_check_job sess0 d0 (.ok (pre ++ em :: post)) t0 t1).1.committed.attachments
        = (run_email_check_job sess0 d0 (.ok (pre ++ post)) t0 t1).1.committed.attachments ∧
    (run_email_check_job sess0 d0 (.ok (pre ++ em :: post)) t0 t1).2.1
        = (run_email_check_job sess0 d0 (.ok (pre ++ post)) t0 t1).2.1 ∧
    (∀ e ∈ (run_email_check_job sess0 d0 (.ok (pre ++ em :: post)) t0 t1).1.committed.emails,
      e.message_id = [] → e ∈ sess0.committed.emails) := by
  have hloopeq : ∀ s d n, emailLoopA (startFilters sess0 t0) s d n (pre ++ em :: post)
      = emailLoopA (startFilters sess0 t0) s d n (pre ++ post) := by
    intro s d n
    rw [emailLoopA_append, emailLoopA_append]
    cases h : emailLoopA (startFilters sess0 t0) s d n pre with
    | ok v =>
      obtain ⟨s1, d1, n1⟩ := v
      exact emailLoopA_skip_empty _ _ hid _ _ _ _
    | error e => rfl
  have hlen : (pre ++ em :: post).length = (pre ++ post).length + 1 := by
    simp only [List.length_append, List.length_cons]
    omega
  have hnew : ∀ e ∈ (run_email_check_job sess0 d0 (.ok (pre ++ em :: post)) t0 t1).1.committed.emails,
      e.message_id = [] → e ∈ sess0.committed.emails := by
    rw [run_email_check_job_ok_eq]
    cases hl : emailLoopA (startFilters sess0 t0) (startSession sess0 t0) d0 0
      (pre ++ em :: post) with
    | ok v =>
      obtain ⟨s2, d2, saved⟩ := v
      intro e he hemp
      have he' : e ∈ s2.current.emails := he
      rcases emailLoopA_new_emails _ _ _ _ _ _ _ _ hl e he' with h1 | h1
      · have : e ∈ sess0.current.emails := h1
        rw [hfresh] at this
        exact this
      · exact absurd hemp h1
    | error v =>
      obtain ⟨e0, s2, d2, saved⟩ := v
      have hs := emailLoopA_err_sess _ _ _ _ _ _ _ _ _ hl
      rw [hs]
      intro e he _
      have : e ∈ sess0.current.emails := he
      rw [hfresh] at this
      exact this
  have hruneq : run_email_check_job sess0 d0 (.ok (pre ++ em :: post)) t0 t1 =
      match emailLoopA (startFilters sess0 t0) (startSession sess0 t0) d0 0
        (pre ++ post) with
      | .ok (s2, d2, saved) =>
        finalizeRun (Sess.commit s2) d2
          (finishJobRun (createJobRun sess0.current t0).1
            ((pre ++ post).length + 1) saved .success none t1)
      | .error (e, s2, d2, saved) =>
        finalizeRun (Sess.rollback s2) d2
          (finishJobRun (createJobRun sess0.current t0).1
            ((pre ++ post).length + 1) saved .error (some (strOfHTTP e)) t1) := by
    rw [run_email_check_job_ok_eq, hloopeq, hlen]
  refine ⟨?_, ?_, ?_, ?_, ?_, ?_, hnew⟩ <;>
  · rw [hruneq]
    try rw [run_email_check_job_ok_eq]
    try rw [hlen]
    cases hl : emailLoopA (startFilters sess0 t0) (startSession sess0 t0) d0 0
      (pre ++ post) with
    | ok v =>
      obtain ⟨s2, d2, saved⟩ := v
      rfl
    | error v =>
      obtain ⟨e0, s2, d2, saved⟩ := v
      rfl

/-- A concrete candidate with an empty decoded identifier. -/
def c6em : ClientEmail := ⟨[], ['s'], ['r'], none, none, ['b'], some 2, []⟩

/-- Witness for missing_identifier_skipped: the empty-identifier candidate in
first position is counted as fetched but changes nothing else. -/
theorem missing_identifier_skipped_witness :
    c6em.message_id = [] ∧
    (run_email_check_job freshSess [] (.ok ([] ++ c6em :: [c4em])) 10 11).2.2.messages_fetched
        = 2 ∧
    (run_email_check_job freshSess [] (.ok ([] ++ c6em :: [c4em])) 10 11).2.2.messages_saved
        = (run_email_check_job freshSess [] (.ok ([] ++ [c4em])) 10 11).2.2.messages_saved := by
  have h := missing_identifier_skipped freshSess [] 10 11 [] [c4em] c6em rfl rfl
  exact ⟨rfl, h.1, h.2.2.1⟩

/-- The soft-delete API action (EmailRepository.soft_delete plus commit)
applied to every message carrying the given external identifier. -/
def softDeleteByMid (s : Sess) (mid : Str) : Sess :=
  Sess.commit ⟨s.committed,
    { s.current with
      emails := s.current.emails.map
        (fun e => if e.message_id == mid then { e with is_deleted := true } else e) }⟩

lemma attachLoopA_all_ok (emailObj : Email) :
    ∀ l : List ClientAttach, ∀ s d, (∀ a ∈ l, a.write_ok = true) →
      ∃ s' d', attachLoopA emailObj s d l = .ok (s', d') ∧
        s'.current.emails = s.current.emails ∧
        s'.committed = s.committed := by
  intro l
  induction l with
  | nil => intro s d _; exact ⟨s, d, rfl, rfl, rfl⟩
  | cons a rest ih =>
    intro s d h
    have ha : a.write_ok = true := h a (by simp)
    have hsave : save_attachment_with_rollback s d emailObj a =
        .ok (⟨s.committed,
          updateAttachmentStored
            (createAttachment s.current emailObj.id a.filename tempName
              (some a.mime_type) (some a.size_bytes)).2
            (createAttachment s.current emailObj.id a.filename tempName
              (some a.mime_type) (some a.size_bytes)).1.id
            (storedNameA emailObj.id
              (createAttachment s.current emailObj.id a.filename tempName
                (some a.mime_type) (some a.size_bytes)).1.id a.filename)⟩,
          diskInsert d
            (storedNameA emailObj.id
              (createAttachment s.current emailObj.id a.filename tempName
                (some a.mime_type) (some a.size_bytes)).1.id a.filename)) := by
      simp only [save_attachment_with_rollback, ha, if_true]
    obtain ⟨s', d', hrest, he, hc⟩ := ih _ _ (fun x hx => h x (by simp [hx]))
    refine ⟨s', d', ?_, ?_, ?_⟩
    · simp only [attachLoopA]
      rw [hsave]
      exact hrest
    · exact he
    · exact hc

lemma mark_message_id (mid : Str) (e : Email) :
    ((if e.message_id == mid then { e with is_deleted := true } else e) :
      Email).message_id = e.message_id := by
  split <;> rfl

lemma countP_softdelete (mid : Str) (l : List Email) :
    List.countP (fun e => e.message_id == mid)
      (l.map (fun e => if e.message_id == mid then
        { e with is_deleted := true } else e)) =
      List.countP (fun e => e.message_id == mid) l := by
  rw [List.countP_map]
  apply List.countP_congr
  intro e _
  simp only [Function.comp_apply]
  rw [mark_message_id]

lemma run_skip_existing (sess : Sess) (d0 : Disk) (em : ClientEmail)
    (t0 t1 : Nat)
    (hid' : em.message_id.isEmpty = false)
    (hexists : (get_by_message_id (startSession sess t0).current
      em.message_id).isSome = true) :
    run_email_check_job sess d0 (.ok [em]) t0 t1 =
      finalizeRun (Sess.commit (startSession sess t0)) d0
        (finishJobRun (createJobRun sess.current t0).1 1 0 .success none t1) := by
  rw [run_email_check_job_ok_eq]
  have hstep : emailLoopA (startFilters sess t0) (startSession sess t0) d0 0 [em]
      = .ok (startSession sess t0, d0, 0) := by
    simp only [emailLoopA, hid', hexists, if_true, Bool.false_eq_true, if_false]
  rw [hstep]
  rfl

/-- C3: dedup across runs through get_by_message_id, which ignores the
soft-deletion flag.  Starting from a store not containing the candidate's
identifier, a first run persists it (saved count 1); a second run over the
same raw message — whether or not the stored message was soft-deleted in
between — skips it: its saved count is 0 and exactly one message with that
identifier exists in the committed store afterwards. -/
theorem dedup_idempotent (sess0 : Sess) (d0 : Disk) (em : ClientEmail)
    (t0 t1 t2 t3 : Nat)
    (hfresh : sess0.current = sess0.committed)
    (hid : em.message_id ≠ [])
    (hnodup : ∀ e ∈ sess0.committed.emails, e.message_id ≠ em.message_id)
    (hfilt : apply_filters_to_email (emailDataOf em) (startFilters sess0 t0) = true)
    (hatt : ∀ a ∈ em.attachments, a.write_ok = true) :
    (run_email_check_job sess0 d0 (.ok [em]) t0 t1).2.2.messages_saved = 1 ∧
    (run_email_check_job (run_email_check_job sess0 d0 (.ok [em]) t0 t1).1
      (run_email_check_job sess0 d0 (.ok [em]) t0 t1).2.1
      (.ok [em]) t2 t3).2.2.messages_saved = 0 ∧
    List.countP (fun e => e.message_id == em.message_id)
      (run_email_check_job (run_email_check_job sess0 d0 (.ok [em]) t0 t1).1
        (run_email_check_job sess0 d0 (.ok [em]) t0 t1).2.1
        (.ok [em]) t2 t3).1.committed.emails = 1 ∧
    (run_email_check_job
      (softDeleteByMid (run_email_check_job sess0 d0 (.ok [em]) t0 t1).1 em.message_id)
      (run_email_check_job sess0 d0 (.ok [em]) t0 t1).2.1
      (.ok [em]) t2 t3).2.2.messages_saved = 0 ∧
    List.countP (fun e => e.message_id == em.message_id)
      (run_email_check_job
        (softDeleteByMid (run_email_check_job sess0 d0 (.ok [em]) t0 t1).1 em.message_id)
        (run_email_check_job sess0 d0 (.ok [em]) t0 t1).2.1
        (.ok [em]) t2 t3).1.committed.emails = 1 := by
  have hid' : em.message_id.isEmpty = false := by
    cases h : em.message_id with
    | nil => exact absurd h hid
    | cons c t => rfl
  have hdup1 : get_by_message_id (startSession sess0 t0).current em.message_id
      = none := by
    unfold get_by_message_id
    rw [List.find?_eq_none]
    intro e he
    have he' : e ∈ sess0.committed.emails := by
      rw [← hfresh]
      exact he
    simp only [beq_iff_eq]
    exact hnodup e he'
  set emailObj := (createEmail (startSession sess0 t0).current em.message_id
    em.sender (some em.recipient) em.cc em.subject (some em.body)
    em.received_at).1 with hobj
  obtain ⟨s2, d2, hA, hAe, hAc⟩ := attachLoopA_all_ok emailObj em.attachments
    ⟨(startSession sess0 t0).committed,
      (createEmail (startSession sess0 t0).current em.message_id em.sender
        (some em.recipient) em.cc em.subject (some em.body) em.received_at).2⟩
    d0 hatt
  have hstep1 : emailLoopA (startFilters sess0 t0) (startSession sess0 t0)
      d0 0 [em] = .ok (s2, d2, 1) := by
    simp only [emailLoopA, hid', hdup1, Option.isSome_none, Bool.false_eq_true,
      if_false, hfilt, Bool.not_true]
    rw [hA]
  have hrun1 : run_email_check_job sess0 d0 (.ok [em]) t0 t1 =
      finalizeRun (Sess.commit s2) d2
        (finishJobRun (createJobRun sess0.current t0).1 1 1 .success none t1) := by
    rw [run_email_check_job_ok_eq, hstep1]
    rfl
  have hsaved1 : (run_email_check_job sess0 d0 (.ok [em]) t0 t1).2.2.messages_saved
      = 1 := by
    rw [hrun1]
    rfl
  have hE1c : (run_email_check_job sess0 d0 (.ok [em]) t0 t1).1.current.emails
      = sess0.current.emails ++ [emailObj] := by
    rw [hrun1]
    show s2.current.emails = _
    rw [hAe]
    rfl
  have hz : List.countP (fun e => e.message_id == em.message_id)
      sess0.current.emails = 0 := by
    rw [List.countP_eq_zero]
    intro e he
    have he' : e ∈ sess0.committed.emails := by rw [← hfresh]; exact he
    simp only [beq_iff_eq]
    exact hnodup e he'
  have hobjid : (emailObj.message_id == em.message_id) = true := by
    show (em.message_id == em.message_id) = true
    simp
  refine ⟨hsaved1, ?_, ?_, ?_, ?_⟩
  · have hex : (get_by_message_id
        (startSession (run_email_check_job sess0 d0 (.ok [em]) t0 t1).1 t2).current
        em.message_id).isSome = true := by
      unfold get_by_message_id
      rw [List.find?_isSome]
      refine ⟨emailObj, ?_, hobjid⟩
      show emailObj ∈ (run_email_check_job sess0 d0 (.ok [em]) t0 t1).1.current.emails
      rw [hE1c]
      simp
    rw [run_skip_existing _ _ _ _ _ hid' hex]
    rfl
  · have hex : (get_by_message_id
        (startSession (run_email_check_job sess0 d0 (.ok [em]) t0 t1).1 t2).current
        em.message_id).isSome = true := by
      unfold get_by_message_id
      rw [List.find?_isSome]
      refine ⟨emailObj, ?_, hobjid⟩
      show emailObj ∈ (run_email_check_job sess0 d0 (.ok [em]) t0 t1).1.current.emails
      rw [hE1c]
      simp
    rw [run_skip_existing _ _ _ _ _ hid' hex]
    show List.countP _
      (run_email_check_job sess0 d0 (.ok [em]) t0 t1).1.current.emails = 1
    rw [hE1c, List.countP_append, hz]
    simp [List.countP_cons, hobjid]
  · have hex : (get_by_message_id
        (startSession (softDeleteByMid
          (run_email_check_job sess0 d0 (.ok [em]) t0 t1).1 em.message_id) t2).current
        em.message_id).isSome = true := by
      unfold get_by_message_id
      rw [List.find?_isSome]
      refine ⟨(if emailObj.message_id == em.message_id then
        { emailObj with is_deleted := true } else emailObj), ?_, ?_⟩
      · show _ ∈ ((run_email_check_job sess0 d0 (.ok [em]) t0 t1).1.current.emails.map
          (fun e => if e.message_id == em.message_id then
            { e with is_deleted := true } else e))
        apply List.mem_map_of_mem
        rw [hE1c]
        simp
      · rw [mark_message_id]
        exact hobjid
    rw [run_skip_existing _ _ _ _ _ hid' hex]
    rfl
  · have hex : (get_by_message_id
        (startSession (softDeleteByMid
          (run_email_check_job sess0 d0 (.ok [em]) t0 t1).1 em.message_id) t2).current
        em.message_id).isSome = true := by
      unfold get_by_message_id
      rw [List.find?_isSome]
      refine ⟨(if emailObj.message_id == em.message_id then
        { emailObj with is_deleted := true } else emailObj), ?_, ?_⟩
      · show _ ∈ ((run_email_check_job sess0 d0 (.ok [em]) t0 t1).1.current.emails.map
          (fun e => if e.message_id == em.message_id then
            { e with is_deleted := true } else e))
        apply List.mem_map_of_mem
        rw [hE1c]
        simp
      · rw [mark_message_id]
        exact hobjid
    rw [run_skip_existing _ _ _ _ _ hid' hex]
    show List.countP _
      ((run_email_check_job sess0 d0 (.ok [em]) t0 t1).1.current.emails.map
        (fun e => if e.message_id == em.message_id then
          { e with is_deleted := true } else e)) = 1
    rw [countP_softdelete, hE1c, List.countP_append, hz]
    simp [List.countP_cons, hobjid]

/-- Witness for dedup_idempotent: ingesting the same one-message batch twice
over a fresh store keeps exactly one record, also across a soft delete. -/
theorem dedup_idempotent_witness :
    (∀ e ∈ freshSess.committed.emails, e.message_id ≠ c4em.message_id) ∧
    (run_email_check_job freshSess [] (.ok [c4em]) 10 11).2.2.messages_saved = 1 ∧
    (run_email_check_job (run_email_check_job freshSess [] (.ok [c4em]) 10 11).1
      (run_email_check_job freshSess [] (.ok [c4em]) 10 11).2.1
      (.ok [c4em]) 12 13).2.2.messages_saved = 0 ∧
    List.countP (fun e => e.message_id == c4em.message_id)
      (run_email_check_job
        (softDeleteByMid (run_email_check_job freshSess [] (.ok [c4em]) 10 11).1
          c4em.message_id)
        (run_email_check_job freshSess [] (.ok [c4em]) 10 11).2.1
        (.ok [c4em]) 12 13).1.committed.emails = 1 := by
  have h := dedup_idempotent freshSess [] c4em 10 11 12 13 rfl (by decide)
    (by intro e he; cases he) rfl (by intro a ha; cases ha)
  exact ⟨(by intro e he; cases he), h.1, h.2.1, h.2.2.2.2⟩

/-- Restriction under which the two ingestion entry points agree: the raw
Message-ID (when present) carries no surrounding whitespace, the recipient
header is present, the cc and subject headers are not present-but-empty, the
date header is parseable, and the message carries no attachments. -/
def headerClean (em : RawEmail) : Prop :=
  (∀ s, em.message_id = some s → stripStr s = s) ∧
  em.recipient.isSome = true ∧ em.cc ≠ some [] ∧ em.subject ≠ some [] ∧
  em.date.isSome = true ∧ em.attachments = []

lemma truthy_some_ne (o : Option Str) (hne : o ≠ some []) :
    (if truthy o then o else none) = o := by
  cases o with
  | none => rfl
  | some s =>
    cases s with
    | nil => exact absurd rfl hne
    | cons c t => rfl

lemma loops_agree (now : Nat) :
    ∀ raws : List RawEmail, ∀ (s : Sess) (d : Disk) (n : Nat),
      (∀ em ∈ raws, headerClean em) →
      emailLoopA [] s d n (raws.map clientDecode) =
        .ok (⟨s.committed, (emailLoopB now s.current d n raws).1⟩,
          (emailLoopB now s.current d n raws).2.1,
          (emailLoopB now s.current d n raws).2.2) := by
  intro raws
  induction raws with
  | nil => intro s d n _; rfl
  | cons em rest ih =>
    intro s d n hcl
    obtain ⟨hstrip, hrc, hcc, hsub, hdate, hatts⟩ := hcl em (by simp)
    have hrest : ∀ x ∈ rest, headerClean x := fun x hx => hcl x (by simp [hx])
    simp only [List.map_cons, emailLoopA, emailLoopB]
    cases hmid : em.message_id with
    | none =>
      have hA : (clientDecode em).message_id.isEmpty = true := by
        show (stripStr (em.message_id.getD [])).isEmpty = true
        rw [hmid]
        rfl
      rw [hA, if_pos rfl]
      exact ih s d n hrest
    | some sv =>
      have hsv : stripStr sv = sv := hstrip sv hmid
      have hA : (clientDecode em).message_id = sv := by
        show stripStr (em.message_id.getD []) = sv
        rw [hmid]
        exact hsv
      cases sv with
      | nil =>
        have hA' : (clientDecode em).message_id.isEmpty = true := by
          rw [hA]; rfl
        rw [hA', if_pos rfl]
        exact ih s d n hrest
      | cons c t =>
        have hA' : (clientDecode em).message_id.isEmpty = false := by
          rw [hA]; rfl
        rw [hA']
        simp only [Bool.false_eq_true, if_false, Option.getD_some]
        rw [hA]
        cases hg : get_by_message_id s.current (c :: t) with
        | some e =>
          exact ih s d n hrest
        | none =>
          obtain ⟨rc, hrcv⟩ := Option.isSome_iff_exists.mp hrc
          obtain ⟨dt, hdtv⟩ := Option.isSome_iff_exists.mp hdate
          have hcreate :
              createEmail s.current (c :: t) ((clientDecode em).sender)
                (some ((clientDecode em).recipient)) ((clientDecode em).cc)
                ((clientDecode em).subject) (some ((clientDecode em).body))
                ((clientDecode em).received_at) =
              createEmail s.current (c :: t) (em.sender.getD []) em.recipient
                em.cc em.subject (some em.body) (some (em.date.getD now)) := by
            show createEmail s.current (c :: t) (em.sender.getD [])
                (some (em.recipient.getD [])) (if truthy em.cc then em.cc else none)
                (if truthy em.subject then em.subject else none) (some em.body)
                em.date = _
            rw [truthy_some_ne em.cc hcc, truthy_some_ne em.subject hsub,
              hrcv, hdtv]
            rfl
          rw [hcreate]
          have hattA : (clientDecode em).attachments = [] := by
            show em.attachments.map clientDecodeAttach = []
            rw [hatts]
            rfl
          rw [hattA, hatts]
          simp only [attachLoopA, attachLoopB]
          exact ih _ _ _ hrest

/-- C10 amended: restricted to inputs on which their per-message handling
coincides — whitespace-free Message-IDs, present recipients, no
present-but-empty cc or subject headers, parseable dates, no attachments —
and to stores with no enabled FilterRule, the two entry points produce
identical record stores, blob stores and run records.  (Outside this
restriction they diverge, see pipelines_not_equivalent.) -/
theorem pipelines_agree_restricted (sess0 : Sess) (d0 : Disk)
    (raws : List RawEmail) (now t0 t1 : Nat)
    (hnof : enabledFilters sess0.current = [])
    (hclean : ∀ em ∈ raws, headerClean em) :
    run_email_check_job sess0 d0 (.ok (raws.map clientDecode)) t0 t1 =
      fetch_and_store_emails sess0 d0 raws now t0 t1 := by
  have hF : startFilters sess0 t0 = [] := by
    show enabledFilters (startSession sess0 t0).current = []
    exact hnof
  rw [run_email_check_job_ok_eq, hF]
  rw [loops_agree now raws (startSession sess0 t0) d0 0 hclean]
  rw [List.length_map]
  rfl

/-- A raw message whose single attachment blob write fails. -/
def rawFail : RawEmail :=
  ⟨some ['m'], some ['s'], some ['r'], none, none, ['b'], some 3,
    [⟨some ['f'], ['t'], [7], false, true, ['E']⟩]⟩

/-- A raw message with absent recipient and date and empty cc and subject
headers. -/
def rawHdr : RawEmail :=
  ⟨some ['h'], some ['s'], none, some [], some [], ['b'], none, []⟩

/-- An enabled filter rule on a sender substring that matches nothing here. -/
def filtZ : EmailFilter := ⟨true, some ['z'], none, none⟩

/-- A fresh session over a store holding one enabled filter rule. -/
def sessF : Sess := ⟨⟨[], [], [filtZ], []⟩, ⟨[], [], [filtZ], []⟩⟩

/-- A clean raw message accepted by both pipelines. -/
def rawPlain : RawEmail :=
  ⟨some ['a'], some ['s'], some ['r'], none, none, ['b'], some 2, []⟩

/-- C10 counterexample: the two entry points are not equivalent.  On a
failing attachment write run_email_check_job aborts with error and persists
nothing while fetch_and_store_emails persists the message and reports
success; on absent date/recipient and empty subject/cc headers they persist
different Message rows; and with an enabled FilterRule configured
run_email_check_job filters the candidate out while fetch_and_store_emails
(which never consults FilterRules) persists it. -/
theorem pipelines_not_equivalent :
    ((run_email_check_job freshSess [] (.ok ([rawFail].map clientDecode)) 10 11).2.2.status
        = .error ∧
     (run_email_check_job freshSess [] (.ok ([rawFail].map clientDecode)) 10 11).1.committed.emails.length
        = 0 ∧
     (fetch_and_store_emails freshSess [] [rawFail] 5 10 11).2.2.status
        = .success ∧
     (fetch_and_store_emails freshSess [] [rawFail] 5 10 11).1.committed.emails.length
        = 1) ∧
    ((run_email_check_job freshSess [] (.ok ([rawHdr].map clientDecode)) 10 11).1.committed.emails
        ≠ (fetch_and_store_emails freshSess [] [rawHdr] 5 10 11).1.committed.emails) ∧
    ((run_email_check_job sessF [] (.ok ([rawPlain].map clientDecode)) 10 11).2.2.messages_saved
        = 0 ∧
     (fetch_and_store_emails sessF [] [rawPlain] 5 10 11).2.2.messages_saved
        = 1) := by
  exact ⟨⟨by decide, by decide, by decide, by decide⟩, by decide,
    by decide, by decide⟩

/-- Witness for pipelines_agree_restricted: on one clean candidate over a
fresh store without filter rules the two entry points coincide exactly. -/
theorem pipelines_agree_restricted_witness :
    (∀ em ∈ [rawPlain], headerClean em) ∧
    run_email_check_job freshSess [] (.ok ([rawPlain].map clientDecode)) 10 11 =
      fetch_and_store_emails freshSess [] [rawPlain] 5 10 11 := by
  have hc : headerClean rawPlain :=
    ⟨(by intro s h; cases h; rfl), rfl, (by decide), (by decide), rfl, rfl⟩
  have hclean : ∀ em ∈ [rawPlain], headerClean em := by
    intro em hm
    rcases List.mem_singleton.mp hm with rfl
    exact hc
  exact ⟨hclean,
    pipelines_agree_restricted freshSess [] [rawPlain] 5 10 11 rfl hclean⟩
